import Mathlib

/-!
Verification of `md5.py`, a 12-line command-line tool that prints the MD5
digest of the file named by `sys.argv[1]`.

The embedding has three layers:

1. The MD5 algorithm itself (`md5Compress`, `md5Update`, `md5Final`,
   `md5Hex`).  The Python source delegates hashing to `hashlib.md5`, an
   external library that is not part of this repository; its behaviour is
   modelled from the spec, which identifies it as the standardized MD5
   hash (RFC 1321): an incremental accumulator with `update` and
   `hexdigest` operations defined over the input byte stream.
2. The `md5` function of the source (`md5Fun`): it receives a path
   parameter `fname`, yet opens `sys.argv[1]`, streams the file in
   4096-byte chunks through the accumulator, and returns the hex digest.
   Its execution also yields a trace of resource events (open/read/close)
   reflecting the `with open(...)` scope.
3. The top level (`runProg`): the guard `if len(sys.argv) != 1: exit`
   (whose bare `exit` is a no-op expression), followed by
   `print(md5(sys.argv[1]))`.  Output, exit status, diagnostic stream and
   the guard's evaluation are recorded in a `RunResult`.

Bytes are `Nat` values below 256; 32-bit machine arithmetic is `Nat`
arithmetic reduced `% 2 ^ 32`.
-/

/-- Truncation to a 32-bit word. -/
def w32 (x : Nat) : Nat := x % 4294967296

/-- Bitwise complement of a 32-bit word. -/
def not32 (x : Nat) : Nat := x ^^^ 4294967295

/-- Left-rotation of a 32-bit word by `n` bits (`0 < n < 32` in all uses). -/
def rotl32 (x n : Nat) : Nat := w32 (x <<< n) ||| (x >>> (32 - n))

/-- Modelled from the spec: the per-step sine-derived constant table of the
standard MD5 compression function used by `hashlib.md5`. -/
def md5K : List Nat :=
  [0xd76aa478, 0xe8c7b756, 0x242070db, 0xc1bdceee,
   0xf57c0faf, 0x4787c62a, 0xa8304613, 0xfd469501,
   0x698098d8, 0x8b44f7af, 0xffff5bb1, 0x895cd7be,
   0x6b901122, 0xfd987193, 0xa679438e, 0x49b40821,
   0xf61e2562, 0xc040b340, 0x265e5a51, 0xe9b6c7aa,
   0xd62f105d, 0x02441453, 0xd8a1e681, 0xe7d3fbc8,
   0x21e1cde6, 0xc33707d6, 0xf4d50d87, 0x455a14ed,
   0xa9e3e905, 0xfcefa3f8, 0x676f02d9, 0x8d2a4c8a,
   0xfffa3942, 0x8771f681, 0x6d9d6122, 0xfde5380c,
   0xa4beea44, 0x4bdecfa9, 0xf6bb4b60, 0xbebfbc70,
   0x289b7ec6, 0xeaa127fa, 0xd4ef3085, 0x04881d05,
   0xd9d4d039, 0xe6db99e5, 0x1fa27cf8, 0xc4ac5665,
   0xf4292244, 0x432aff97, 0xab9423a7, 0xfc93a039,
   0x655b59c3, 0x8f0ccc92, 0xffeff47d, 0x85845dd1,
   0x6fa87e4f, 0xfe2ce6e0, 0xa3014314, 0x4e0811a1,
   0xf7537e82, 0xbd3af235, 0x2ad7d2bb, 0xeb86d391]

/-- Modelled from the spec: the per-step rotation amounts of standard MD5. -/
def md5S : List Nat :=
  [7, 12, 17, 22, 7, 12, 17, 22, 7, 12, 17, 22, 7, 12, 17, 22,
   5,  9, 14, 20, 5,  9, 14, 20, 5,  9, 14, 20, 5,  9, 14, 20,
   4, 11, 16, 23, 4, 11, 16, 23, 4, 11, 16, 23, 4, 11, 16, 23,
   6, 10, 15, 21, 6, 10, 15, 21, 6, 10, 15, 21, 6, 10, 15, 21]

/-- Modelled from the spec: the round-dependent boolean mixing function. -/
def md5F (i b c d : Nat) : Nat :=
  if i < 16 then (b &&& c) ||| (not32 b &&& d)
  else if i < 32 then (d &&& b) ||| (not32 d &&& c)
  else if i < 48 then b ^^^ c ^^^ d
  else c ^^^ (b ||| not32 d)

/-- Modelled from the spec: the round-dependent message-word schedule. -/
def md5g (i : Nat) : Nat :=
  if i < 16 then i
  else if i < 32 then (5 * i + 1) % 16
  else if i < 48 then (3 * i + 5) % 16
  else (7 * i) % 16

/-- A little-endian 32-bit word assembled from four bytes. -/
def leWord (b0 b1 b2 b3 : Nat) : Nat :=
  b0 + 256 * b1 + 65536 * b2 + 16777216 * b3

/-- The sixteen little-endian words of a 64-byte block. -/
def wordsOf : List Nat → List Nat
  | b0 :: b1 :: b2 :: b3 :: rest => leWord b0 b1 b2 b3 :: wordsOf rest
  | _ => []

/-- One step of the MD5 round function on the register quadruple. -/
def md5Step (m : List Nat) (st : Nat × Nat × Nat × Nat) (i : Nat) :
    Nat × Nat × Nat × Nat :=
  let a := st.1
  let b := st.2.1
  let c := st.2.2.1
  let d := st.2.2.2
  let f := w32 (md5F i b c d + a + md5K.getD i 0 + (m.getD (md5g i) 0))
  (d, w32 (b + rotl32 f (md5S.getD i 0)), b, c)

/-- Modelled from the spec: the MD5 compression function, mapping the
register state and one 64-byte block to the next register state. -/
def md5Compress (st : Nat × Nat × Nat × Nat) (block : List Nat) :
    Nat × Nat × Nat × Nat :=
  let m := wordsOf block
  let r := List.foldl (md5Step m) st (List.range 64)
  (w32 (st.1 + r.1), w32 (st.2.1 + r.2.1), w32 (st.2.2.1 + r.2.2.1),
   w32 (st.2.2.2 + r.2.2.2))

/-- The hash accumulator: the running register state, the count of bytes fed
so far, and the buffered tail of fewer than 64 bytes awaiting a full block. -/
structure MD5Acc where
  regs : Nat × Nat × Nat × Nat
  len : Nat
  buf : List Nat
  deriving DecidableEq, Repr

/-- Modelled from the spec: the fixed MD5 initial register state. -/
def md5InitAcc : MD5Acc :=
  { regs := (0x67452301, 0xefcdab89, 0x98badcfe, 0x10325476),
    len := 0, buf := [] }

/-- Feeding one byte into the accumulator: the byte joins the buffer, and a
full 64-byte buffer is compressed into the register state. -/
def feedByte (acc : MD5Acc) (b : Nat) : MD5Acc :=
  let buf := acc.buf ++ [b]
  if buf.length = 64 then
    { regs := md5Compress acc.regs buf, len := acc.len + 1, buf := [] }
  else
    { regs := acc.regs, len := acc.len + 1, buf := buf }

/-- Modelled from the spec: the accumulator's `update` operation, defined
over the byte stream, one byte at a time. -/
def md5Update (acc : MD5Acc) (bs : List Nat) : MD5Acc :=
  List.foldl feedByte acc bs

/-- The little-endian bytes of a 32-bit word. -/
def wordLE (x : Nat) : List Nat :=
  [x % 256, x / 256 % 256, x / 65536 % 256, x / 16777216 % 256]

/-- The eight little-endian bytes of the 64-bit message bit-length. -/
def le64 (x : Nat) : List Nat :=
  [x % 256, x / 256 % 256, x / 65536 % 256, x / 16777216 % 256,
   x / 4294967296 % 256, x / 1099511627776 % 256,
   x / 281474976710656 % 256, x / 72057594037927936 % 256]

/-- Modelled from the spec: MD5 padding for a message of `len` bytes: the
byte 0x80, zeros up to 56 mod 64, then the bit length, little-endian. -/
def md5Pad (len : Nat) : List Nat :=
  0x80 :: List.replicate ((119 - len % 64) % 64) 0 ++ le64 (8 * len)

/-- Modelled from the spec: finalization: pad, absorb, and emit the sixteen
digest bytes from the register state. -/
def md5Final (acc : MD5Acc) : List Nat :=
  let fin := md5Update acc (md5Pad acc.len)
  wordLE fin.regs.1 ++ wordLE fin.regs.2.1 ++ wordLE fin.regs.2.2.1 ++
    wordLE fin.regs.2.2.2

/-- The lowercase hexadecimal character for a value below 16. -/
def hexChar (n : Nat) : Char :=
  if n < 10 then Char.ofNat (48 + n) else Char.ofNat (87 + n)

/-- The two lowercase hexadecimal characters of one byte. -/
def hexByte (b : Nat) : List Char :=
  [hexChar (b / 16 % 16), hexChar (b % 16)]

/-- A byte list rendered as a lowercase hexadecimal string. -/
def hexOfBytes (bs : List Nat) : String :=
  String.mk (bs.map hexByte).flatten

/-- The accumulator's `hexdigest` operation. -/
def md5HexAcc (acc : MD5Acc) : String :=
  hexOfBytes (md5Final acc)

/-- The one-shot MD5 digest of a byte sequence, as a lowercase hex string. -/
def md5Hex (bs : List Nat) : String :=
  md5HexAcc (md5Update md5InitAcc bs)

/-- The file's content split into chunks of at most `k` bytes, computed with
an explicit fuel of `fuel` iterations: the successive return values of
`f.read(k)` in the loop `for chunk in iter(lambda: f.read(4096), b"")`,
stopping before the empty read. -/
def chunksOfAux (k : Nat) : Nat → List Nat → List (List Nat)
  | 0, _ => []
  | fuel + 1, bs =>
    if bs = [] then []
    else bs.take k :: chunksOfAux k fuel (bs.drop k)

/-- The chunk sequence of the read loop, with fuel equal to the content
length, which suffices for the loop to reach the empty read. -/
def chunksOf (k : Nat) (bs : List Nat) : List (List Nat) :=
  chunksOfAux k bs.length bs

/-- The exceptions that can escape the program: `IndexError` from
`sys.argv[1]` when the list is too short, an `OSError` from `open` for a
path that cannot be opened (the spec's `FileAccessError`), and an I/O
failure raised by a `read` on an already-open file (the spec's
`IoReadError`). -/
inductive PyErr
  | indexError
  | fileAccessError
  | ioReadError
  deriving DecidableEq, Repr

/-- A file as the open call sees it: `ok content` opens and streams
`content` to the end; `readFail pre` opens, yields the chunks of `pre`,
then raises on the next read. -/
inductive File
  | ok (content : List Nat)
  | readFail (pre : List Nat)
  deriving DecidableEq, Repr

/-- Resource events of one call: the open of the file handle, each
`read(4096)` with the byte count it returned, and the close performed when
the `with` block is left. -/
inductive Ev
  | openEv
  | readEv (n : Nat)
  | closeEv
  deriving DecidableEq, Repr

/-- The read events of a chunk sequence, ending with the empty read that
stops the loop. -/
def readEvents (chunks : List (List Nat)) : List Ev :=
  chunks.map (fun c => Ev.readEv c.length) ++ [Ev.readEv 0]

/-- The `md5` function of `md5.py`: despite receiving `fname`, it opens
`sys.argv[1]`, feeds the file to a fresh accumulator in 4096-byte chunks,
and returns `hexdigest()`.  The filesystem is `fs`; a path mapped to `none`
cannot be opened.  The result is paired with the trace of resource events:
a failed `open` acquires no handle, and the `with` block closes the handle
both after the loop and when a read raises. -/
def md5Fun (argv : List String) (fs : String → Option File) (fname : String) :
    Except PyErr String × List Ev :=
  match argv[1]? with
  | none => (Except.error PyErr.indexError, [])
  | some p =>
    match fs p with
    | none => (Except.error PyErr.fileAccessError, [])
    | some (File.ok bs) =>
        let chunks := chunksOf 4096 bs
        let acc := List.foldl md5Update md5InitAcc chunks
        (Except.ok (md5HexAcc acc),
         Ev.openEv :: readEvents chunks ++ [Ev.closeEv])
    | some (File.readFail pre) =>
        let chunks := chunksOf 4096 pre
        (Except.error PyErr.ioReadError,
         Ev.openEv :: (chunks.map (fun c => Ev.readEv c.length)) ++ [Ev.closeEv])

/-- The diagnostic stream of one invocation: empty, or the traceback of the
uncaught exception that terminated the interpreter. -/
inductive StdErr
  | empty
  | traceback (e : PyErr)
  deriving DecidableEq, Repr

/-- The observable outcome of one invocation: standard output, the
diagnostic stream, the exit status, whether the bare `exit` expression of
the guard was evaluated, and the resource-event trace. -/
structure RunResult where
  stdout : String
  stderr : StdErr
  exitCode : Nat
  exitAttempted : Bool
  trace : List Ev
  deriving DecidableEq, Repr

/-- The top level of `md5.py`: the guard `if len(sys.argv) != 1: exit`
evaluates the bare name `exit` — a no-op expression that terminates
nothing — exactly when the length test holds; then `print(md5(sys.argv[1]))`
runs unconditionally.  Evaluating `sys.argv[1]` with fewer than two
elements raises `IndexError`; any uncaught exception prints a traceback on
the diagnostic stream and exits with status 1, with nothing on standard
output; otherwise the digest line is printed and the status is 0. -/
def runProg (argv : List String) (fs : String → Option File) : RunResult :=
  let att := argv.length != 1
  match argv[1]? with
  | none =>
      { stdout := "", stderr := StdErr.traceback PyErr.indexError,
        exitCode := 1, exitAttempted := att, trace := [] }
  | some p =>
      match md5Fun argv fs p with
      | (Except.ok d, tr) =>
          { stdout := d ++ "\n", stderr := StdErr.empty,
            exitCode := 0, exitAttempted := att, trace := tr }
      | (Except.error e, tr) =>
          { stdout := "", stderr := StdErr.traceback e,
            exitCode := 1, exitAttempted := att, trace := tr }

/-- Whether a string is exactly 32 lowercase hexadecimal characters. -/
def isHex32 (s : String) : Bool :=
  s.length == 32 && s.data.all (fun c => "0123456789abcdef".data.contains c)

/-- Whether an event is the acquisition of the file handle. -/
def isOpenEv : Ev → Bool
  | Ev.openEv => true
  | _ => false

/-- Whether an event is the release of the file handle. -/
def isCloseEv : Ev → Bool
  | Ev.closeEv => true
  | _ => false

/-- The number of handle acquisitions in a trace. -/
def opens (tr : List Ev) : Nat := tr.countP isOpenEv

/-- The number of handle releases in a trace. -/
def closes (tr : List Ev) : Nat := tr.countP isCloseEv

theorem md5Update_append (acc : MD5Acc) (x y : List Nat) :
    md5Update acc (x ++ y) = md5Update (md5Update acc x) y := by
  simp [md5Update, List.foldl_append]

theorem foldl_md5Update (cs : List (List Nat)) (acc : MD5Acc) :
    List.foldl md5Update acc cs = md5Update acc cs.flatten := by
  induction cs generalizing acc with
  | nil => simp [md5Update]
  | cons c cs ih => simp [ih, md5Update_append]

theorem chunksOfAux_nil (k fuel : Nat) : chunksOfAux k fuel [] = [] := by
  cases fuel <;> simp [chunksOfAux]

theorem chunksOfAux_fuel (k : Nat) (hk : 0 < k) :
    ∀ f1 f2 (bs : List Nat), bs.length ≤ f1 → bs.length ≤ f2 →
      chunksOfAux k f1 bs = chunksOfAux k f2 bs := by
  intro f1
  induction f1 with
  | zero =>
    intro f2 bs h1 _
    have : bs = [] := List.length_eq_zero.mp (Nat.le_zero.mp h1)
    simp [this, chunksOfAux_nil]
  | succ g ih =>
    intro f2 bs h1 h2
    by_cases hbs : bs = []
    · simp [hbs, chunksOfAux_nil]
    · have hpos : 0 < bs.length := List.length_pos.mpr hbs
      obtain ⟨g2, rfl⟩ : ∃ g2, f2 = g2 + 1 :=
        ⟨f2 - 1, (Nat.succ_pred_eq_of_pos (Nat.lt_of_lt_of_le hpos h2)).symm⟩
      have hdrop : (bs.drop k).length ≤ g := by
        have : (bs.drop k).length = bs.length - k := List.length_drop k bs
        omega
      have hdrop2 : (bs.drop k).length ≤ g2 := by
        have : (bs.drop k).length = bs.length - k := List.length_drop k bs
        omega
      simp only [chunksOfAux, if_neg hbs]
      exact congrArg _ (ih g2 (bs.drop k) hdrop hdrop2)

theorem chunksOfAux_flatten (k : Nat) (hk : 0 < k) :
    ∀ fuel (bs : List Nat), bs.length ≤ fuel →
      (chunksOfAux k fuel bs).flatten = bs := by
  intro fuel
  induction fuel with
  | zero =>
    intro bs h1
    have : bs = [] := List.length_eq_zero.mp (Nat.le_zero.mp h1)
    simp [this, chunksOfAux_nil]
  | succ g ih =>
    intro bs h1
    by_cases hbs : bs = []
    · simp [hbs, chunksOfAux_nil]
    · have hpos : 0 < bs.length := List.length_pos.mpr hbs
      have hdrop : (bs.drop k).length ≤ g := by
        have : (bs.drop k).length = bs.length - k := List.length_drop k bs
        omega
      simp only [chunksOfAux, if_neg hbs, List.flatten_cons, ih (bs.drop k) hdrop]
      exact List.take_append_drop k bs

theorem chunksOf_flatten (k : Nat) (hk : 0 < k) (bs : List Nat) :
    (chunksOf k bs).flatten = bs :=
  chunksOfAux_flatten k hk bs.length bs (Nat.le_refl _)

theorem chunked_update (k : Nat) (hk : 0 < k) (bs : List Nat) :
    List.foldl md5Update md5InitAcc (chunksOf k bs) = md5Update md5InitAcc bs := by
  rw [foldl_md5Update, chunksOf_flatten k hk]

theorem chunked_hex (k : Nat) (hk : 0 < k) (bs : List Nat) :
    md5HexAcc (List.foldl md5Update md5InitAcc (chunksOf k bs)) = md5Hex bs := by
  rw [chunked_update k hk, md5Hex]

theorem hexChar_contains :
    ∀ n, n < 16 → "0123456789abcdef".data.contains (hexChar n) = true := by
  decide

theorem hexByte_contains (b : Nat) :
    ∀ c ∈ hexByte b, "0123456789abcdef".data.contains c = true := by
  intro c hc
  simp only [hexByte, List.mem_cons, List.not_mem_nil, or_false] at hc
  rcases hc with rfl | rfl
  · exact hexChar_contains _ (Nat.mod_lt _ (by omega))
  · exact hexChar_contains _ (Nat.mod_lt _ (by omega))

theorem hexOfBytes_all (bs : List Nat) :
    ((bs.map hexByte).flatten).all
      (fun c => "0123456789abcdef".data.contains c) = true := by
  induction bs with
  | nil => rfl
  | cons b bs ih =>
    simp only [List.map_cons, List.flatten_cons, List.all_append, ih,
      Bool.and_true, List.all_eq_true]
    exact hexByte_contains b

theorem hexOfBytes_length (bs : List Nat) :
    (hexOfBytes bs).length = 2 * bs.length := by
  induction bs with
  | nil => rfl
  | cons b bs ih =>
    simp only [hexOfBytes, String.length, String.mk] at ih ⊢
    simp only [List.map_cons, List.flatten_cons, List.length_append, ih, hexByte,
      List.length_cons, List.length_nil, List.length_cons]
    omega

theorem md5Final_length (acc : MD5Acc) : (md5Final acc).length = 16 := by
  simp [md5Final, wordLE]

theorem isHex32_md5HexAcc (acc : MD5Acc) : isHex32 (md5HexAcc acc) = true := by
  have hlen : (md5HexAcc acc).length = 32 := by
    have := hexOfBytes_length (md5Final acc)
    rw [md5Final_length] at this
    exact this
  have hall := hexOfBytes_all (md5Final acc)
  simp only [isHex32, Bool.and_eq_true, beq_iff_eq, hlen, true_and]
  exact hall

theorem opens_map_readEv (ns : List Nat) : opens (ns.map Ev.readEv) = 0 := by
  simp only [opens, List.countP_eq_zero]
  intro e he
  obtain ⟨n, _, rfl⟩ := List.mem_map.mp he
  simp [isOpenEv]

theorem closes_map_readEv (ns : List Nat) : closes (ns.map Ev.readEv) = 0 := by
  simp only [closes, List.countP_eq_zero]
  intro e he
  obtain ⟨n, _, rfl⟩ := List.mem_map.mp he
  simp [isCloseEv]

theorem opens_take_body (ns : List Nat) :
    ∀ n, opens (List.take n (ns.map Ev.readEv ++ [Ev.closeEv])) = 0 := by
  induction ns with
  | nil =>
    intro n
    cases n <;> simp [opens, List.countP, List.countP.go, isOpenEv]
  | cons x ns ih =>
    intro n
    cases n with
    | zero => rfl
    | succ m =>
      simp only [List.map_cons, List.cons_append, List.take_succ_cons]
      simp only [opens, List.countP_cons, isOpenEv, Bool.false_eq_true,
        if_false, Nat.add_zero] at ih ⊢
      exact ih m

theorem closes_take_body (ns : List Nat) :
    ∀ n, closes (List.take n (ns.map Ev.readEv ++ [Ev.closeEv])) ≤ 1 := by
  induction ns with
  | nil =>
    intro n
    cases n <;> simp [closes, List.countP, List.countP.go, isCloseEv]
  | cons x ns ih =>
    intro n
    cases n with
    | zero => simp [closes, List.countP, List.countP.go]
    | succ m =>
      simp only [List.map_cons, List.cons_append, List.take_succ_cons]
      simp only [closes, List.countP_cons, isCloseEv, Bool.false_eq_true,
        if_false, Nat.add_zero] at ih ⊢
      exact ih m

/-- A trace consisting of one open, a run of reads, and one close is
balanced, and no strict initial segment of it ever holds more than one
handle or closes a handle it has not opened. -/
theorem trace_wellformed (ns : List Nat) :
    opens (Ev.openEv :: ns.map Ev.readEv ++ [Ev.closeEv]) =
      closes (Ev.openEv :: ns.map Ev.readEv ++ [Ev.closeEv]) ∧
    ∀ n,
      closes (List.take n (Ev.openEv :: ns.map Ev.readEv ++ [Ev.closeEv])) ≤
        opens (List.take n (Ev.openEv :: ns.map Ev.readEv ++ [Ev.closeEv])) ∧
      opens (List.take n (Ev.openEv :: ns.map Ev.readEv ++ [Ev.closeEv])) ≤
        closes (List.take n (Ev.openEv :: ns.map Ev.readEv ++ [Ev.closeEv])) + 1 := by
  constructor
  · have h1 := opens_map_readEv ns
    have h2 := closes_map_readEv ns
    simp only [opens, closes] at h1 h2 ⊢
    simp [List.countP_cons, List.countP_append, h1, h2, isOpenEv, isCloseEv]
  · intro n
    cases n with
    | zero => simp [opens, closes, List.countP, List.countP.go]
    | succ m =>
      simp only [List.cons_append, List.take_succ_cons]
      have hopen : opens (Ev.openEv :: List.take m (ns.map Ev.readEv ++ [Ev.closeEv])) =
          1 + opens (List.take m (ns.map Ev.readEv ++ [Ev.closeEv])) := by
        simp [opens, List.countP_cons, isOpenEv, Nat.add_comm]
      have hclose : closes (Ev.openEv :: List.take m (ns.map Ev.readEv ++ [Ev.closeEv])) =
          closes (List.take m (ns.map Ev.readEv ++ [Ev.closeEv])) := by
        simp [closes, List.countP_cons, isCloseEv]
      rw [hopen, hclose, opens_take_body]
      have := closes_take_body ns m
      omega

set_option maxRecDepth 8000 in
/-- C1: for every byte sequence stored in the file at the path taken from
the argument vector, the `md5` function returns the MD5 digest of that
sequence; digesting the empty sequence yields
`d41d8cd98f00b204e9800998ecf8427e` and digesting the bytes of `abc` yields
`900150983cd24fb0d6963f7d28e17f72`. -/
theorem c1_digest_correct :
    (∀ (argv : List String) (fs : String → Option File) (fname p : String)
        (bs : List Nat), argv[1]? = some p → fs p = some (File.ok bs) →
        (md5Fun argv fs fname).1 = Except.ok (md5Hex bs)) ∧
    md5Hex [] = "d41d8cd98f00b204e9800998ecf8427e" ∧
    md5Hex [97, 98, 99] = "900150983cd24fb0d6963f7d28e17f72" := by
  refine ⟨?_, by decide, by decide⟩
  intro argv fs fname p bs hA hF
  simp only [md5Fun, hA, hF]
  rw [chunked_hex 4096 (by omega)]

/-- A filesystem holding one file `f` whose content is the bytes of `abc`. -/
def fsAbc : String → Option File :=
  fun p => if p = "f" then some (File.ok [97, 98, 99]) else none

theorem c1_witness :
    (["md5.py", "f"][1]? = some "f") ∧
    (fsAbc "f" = some (File.ok [97, 98, 99])) ∧
    (md5Fun ["md5.py", "f"] fsAbc "f").1 = Except.ok (md5Hex [97, 98, 99]) :=
  ⟨rfl, by decide, c1_digest_correct.1 ["md5.py", "f"] fsAbc "f" "f" [97, 98, 99]
    rfl (by decide)⟩

/-- C2: the accumulator state reached by feeding the file's bytes in chunks
of any fixed positive size, chunk by chunk, equals the state reached by
feeding the byte sequence whole, and the resulting digests agree: the
digest depends on the byte stream, not on the chunk framing. -/
theorem c2_chunk_framing : ∀ (bs : List Nat) (k : Nat), 0 < k →
    List.foldl md5Update md5InitAcc (chunksOf k bs) = md5Update md5InitAcc bs ∧
    md5HexAcc (List.foldl md5Update md5InitAcc (chunksOf k bs)) = md5Hex bs :=
  fun bs k hk => ⟨chunked_update k hk bs, chunked_hex k hk bs⟩

theorem c2_witness : 0 < 2 ∧
    (List.foldl md5Update md5InitAcc (chunksOf 2 [0, 1, 2, 3, 4]) =
        md5Update md5InitAcc [0, 1, 2, 3, 4] ∧
      md5HexAcc (List.foldl md5Update md5InitAcc (chunksOf 2 [0, 1, 2, 3, 4])) =
        md5Hex [0, 1, 2, 3, 4]) :=
  ⟨by decide, c2_chunk_framing [0, 1, 2, 3, 4] 2 (by decide)⟩

/-- C10: the `md5` function ignores its `fname` parameter: in a fixed
process state (argument vector and filesystem), any two paths passed to it
produce identical results, because the function opens `sys.argv[1]`. -/
theorem c10_fname_unused :
    ∀ (argv : List String) (fs : String → Option File) (p q : String),
      md5Fun argv fs p = md5Fun argv fs q :=
  fun _ _ _ _ => rfl

/-- C3: evaluation of the code at the failing input: invoked with the
program name only (no path argument), the run raises an uncaught
`IndexError` — a traceback on the diagnostic stream, not a usage message —
and exits with status 1.  This exhibits the divergence from the claim that
such an invocation emits a usage message and never reaches an unhandled
crash. -/
theorem c3_missing_arg_run :
    runProg ["md5.py"] (fun _ => none) =
      { stdout := "", stderr := StdErr.traceback PyErr.indexError,
        exitCode := 1, exitAttempted := false, trace := [] } := rfl

/-- C4, counterexample: with the argument absent (the vector holds only the
program name), the guard `len(sys.argv) != 1` is false, so the bare `exit`
expression is never attempted, contrary to the claim. -/
theorem c4_counterexample :
    (["md5.py"][1]? = none) ∧
    (runProg ["md5.py"] (fun _ => none)).exitAttempted = false :=
  ⟨rfl, rfl⟩

/-- C4, amended: if the argument is absent, the argument-count check is
false, so the bare `exit` expression is skipped — not attempted — and the
program proceeds to read `sys.argv[1]` anyway, raising an uncaught
`IndexError` that ends the run with status 1. -/
theorem c4_guard_skipped :
    ∀ (argv : List String) (fs : String → Option File), argv.length = 1 →
    (runProg argv fs).exitAttempted = false ∧
    (runProg argv fs).stderr = StdErr.traceback PyErr.indexError ∧
    (runProg argv fs).exitCode = 1 := by
  intro argv fs h
  have hA : argv[1]? = none := by
    rw [List.getElem?_eq_none_iff]
    omega
  simp [runProg, hA, h]

theorem c4_witness :
    (["md5.py"] : List String).length = 1 ∧
    ((runProg ["md5.py"] (fun _ => none)).exitAttempted = false ∧
     (runProg ["md5.py"] (fun _ => none)).stderr =
       StdErr.traceback PyErr.indexError ∧
     (runProg ["md5.py"] (fun _ => none)).exitCode = 1) :=
  ⟨rfl, c4_guard_skipped ["md5.py"] (fun _ => none) rfl⟩

/-- C5: every invocation is all-or-nothing: either standard output is
exactly one 32-character lowercase-hex digest line and the status is 0, or
standard output is empty and the status is non-zero. -/
theorem c5_all_or_nothing :
    ∀ (argv : List String) (fs : String → Option File),
    ((runProg argv fs).exitCode = 0 ∧
      ∃ d, isHex32 d = true ∧ (runProg argv fs).stdout = d ++ "\n") ∨
    ((runProg argv fs).exitCode ≠ 0 ∧ (runProg argv fs).stdout = "") := by
  intro argv fs
  cases hA : argv[1]? with
  | none => right; simp [runProg, hA]
  | some p =>
    cases hF : fs p with
    | none => right; simp [runProg, md5Fun, hA, hF]
    | some file =>
      cases file with
      | ok bs =>
        left
        refine ⟨by simp [runProg, md5Fun, hA, hF], ?_⟩
        exact ⟨md5HexAcc (List.foldl md5Update md5InitAcc (chunksOf 4096 bs)),
          isHex32_md5HexAcc _, by simp [runProg, md5Fun, hA, hF]⟩
      | readFail pre => right; simp [runProg, md5Fun, hA, hF]

theorem md5HexAcc_length (acc : MD5Acc) : (md5HexAcc acc).length = 32 := by
  have := hexOfBytes_length (md5Final acc)
  rw [md5Final_length] at this
  exact this

theorem md5HexAcc_all (acc : MD5Acc) :
    (md5HexAcc acc).data.all
      (fun c => "0123456789abcdef".data.contains c) = true :=
  hexOfBytes_all (md5Final acc)

/-- C6: on every successful invocation, standard output is exactly a
32-character string of lowercase hexadecimal digits followed by one
newline, and nothing else. -/
theorem c6_success_format :
    ∀ (argv : List String) (fs : String → Option File),
      (runProg argv fs).exitCode = 0 →
    ∃ d, (runProg argv fs).stdout = d ++ "\n" ∧ d.length = 32 ∧
      d.data.all (fun c => "0123456789abcdef".data.contains c) = true := by
  intro argv fs h0
  cases hA : argv[1]? with
  | none => simp [runProg, hA] at h0
  | some p =>
    cases hF : fs p with
    | none => simp [runProg, md5Fun, hA, hF] at h0
    | some file =>
      cases file with
      | ok bs =>
        exact ⟨md5HexAcc (List.foldl md5Update md5InitAcc (chunksOf 4096 bs)),
          by simp [runProg, md5Fun, hA, hF], md5HexAcc_length _, md5HexAcc_all _⟩
      | readFail pre => simp [runProg, md5Fun, hA, hF] at h0

theorem c6_witness :
    (runProg ["md5.py", "f"] fsAbc).exitCode = 0 ∧
    ∃ d, (runProg ["md5.py", "f"] fsAbc).stdout = d ++ "\n" ∧ d.length = 32 ∧
      d.data.all (fun c => "0123456789abcdef".data.contains c) = true :=
  ⟨rfl, c6_success_format ["md5.py", "f"] fsAbc rfl⟩

/-- C7: for every path that cannot be opened, the invocation exits with
status 1, writes nothing to standard output, and reports the failure on
the diagnostic stream; the open call itself is the accessibility check. -/
theorem c7_unopenable :
    ∀ (argv : List String) (fs : String → Option File) (p : String),
      argv[1]? = some p → fs p = none →
    (runProg argv fs).exitCode = 1 ∧ (runProg argv fs).stdout = "" ∧
    (runProg argv fs).stderr = StdErr.traceback PyErr.fileAccessError := by
  intro argv fs p hA hF
  simp [runProg, md5Fun, hA, hF]

theorem c7_witness :
    (["md5.py", "g"][1]? = some "g") ∧
    ((fun (_ : String) => (none : Option File)) "g" = none) ∧
    ((runProg ["md5.py", "g"] (fun _ => none)).exitCode = 1 ∧
     (runProg ["md5.py", "g"] (fun _ => none)).stdout = "" ∧
     (runProg ["md5.py", "g"] (fun _ => none)).stderr =
       StdErr.traceback PyErr.fileAccessError) :=
  ⟨rfl, rfl, c7_unopenable ["md5.py", "g"] (fun _ => none) "g" rfl rfl⟩

/-- C8: on every exit path of the `md5` function the trace of resource
events is balanced — every opened handle is closed before the function
returns — and along every initial segment of the trace at most one handle
is open, and none is closed that was not opened. -/
theorem c8_handles :
    ∀ (argv : List String) (fs : String → Option File) (fname : String),
    opens (md5Fun argv fs fname).2 = closes (md5Fun argv fs fname).2 ∧
    ∀ n,
      closes (List.take n (md5Fun argv fs fname).2) ≤
        opens (List.take n (md5Fun argv fs fname).2) ∧
      opens (List.take n (md5Fun argv fs fname).2) ≤
        closes (List.take n (md5Fun argv fs fname).2) + 1 := by
  intro argv fs fname
  cases hA : argv[1]? with
  | none => simp [md5Fun, hA, opens, closes]
  | some p =>
    cases hF : fs p with
    | none => simp [md5Fun, hA, hF, opens, closes]
    | some file =>
      cases file with
      | ok bs =>
        have htr : (md5Fun argv fs fname).2 =
            Ev.openEv ::
              ((chunksOf 4096 bs).map List.length ++ [0]).map Ev.readEv ++
              [Ev.closeEv] := by
          simp [md5Fun, hA, hF, readEvents, List.map_append, List.map_map]
        rw [htr]
        exact trace_wellformed _
      | readFail pre =>
        have htr : (md5Fun argv fs fname).2 =
            Ev.openEv :: ((chunksOf 4096 pre).map List.length).map Ev.readEv ++
              [Ev.closeEv] := by
          simp [md5Fun, hA, hF, List.map_map]
        rw [htr]
        exact trace_wellformed _

/-- C9: the read loop terminates on every finite file: fuel beyond the
content length does not change the chunk sequence (the loop reaches the
empty read within as many iterations as there are bytes), the chunks
concatenate back to the whole content, and the run completes with a
digest. -/
theorem c9_termination :
    ∀ (bs : List Nat) (k extra : Nat), 0 < k →
    chunksOfAux k (bs.length + extra) bs = chunksOf k bs ∧
    (chunksOf k bs).flatten = bs ∧
    ∀ (argv : List String) (fs : String → Option File) (fname p : String),
      argv[1]? = some p → fs p = some (File.ok bs) →
      ∃ d, (md5Fun argv fs fname).1 = Except.ok d := by
  intro bs k extra hk
  refine ⟨chunksOfAux_fuel k hk _ _ bs (by omega) (Nat.le_refl _),
    chunksOf_flatten k hk bs, ?_⟩
  intro argv fs fname p hA hF
  refine ⟨md5HexAcc (List.foldl md5Update md5InitAcc (chunksOf 4096 bs)), ?_⟩
  simp [md5Fun, hA, hF]

theorem c9_witness :
    0 < 3 ∧
    (chunksOfAux 3 (List.length [5, 6, 7, 8] + 2) [5, 6, 7, 8] =
        chunksOf 3 [5, 6, 7, 8] ∧
      (chunksOf 3 [5, 6, 7, 8]).flatten = [5, 6, 7, 8] ∧
      ∃ d, (md5Fun ["md5.py", "f"]
          (fun _ => some (File.ok [5, 6, 7, 8])) "f").1 = Except.ok d) := by
  have h := c9_termination [5, 6, 7, 8] 3 2 (by decide)
  exact ⟨by decide, h.1, h.2.1, h.2.2 ["md5.py", "f"] _ "f" "f" rfl rfl⟩
